import Mathlib

/-!
Verification development for the landscape-client message exchange
subsystem and its configuration/virtualization helpers.

The broker message store, exchange engine and persisted store are
modelled from the specification text (their implementation modules are
referenced only through test helpers here); the configuration layer
(deployment.py) and the virtualization detector (lib/vm_info.py) are
embedded directly from their sources.
-/

namespace LandscapeSpec

/-! ## Association lists (model of Python dict / ConfigParser section / Persist mapping) -/

/-- Lookup of a key in an association list, modelling Python `name in options`
followed by `options[name]`, ConfigParser option lookup, and Persist get. -/
def alistGet {α : Type} : List (String × α) → String → Option α
  | [], _ => none
  | e :: rest, k => if e.1 = k then some e.2 else alistGet rest k

/-- Update of a key in an association list, modelling Python dict update /
`ConfigParser.set` / Persist set: the first existing binding is replaced in
place, otherwise a new binding is appended. -/
def alistSet {α : Type} : List (String × α) → String → α → List (String × α)
  | [], k, v => [(k, v)]
  | e :: rest, k, v => if e.1 = k then (k, v) :: rest else e :: alistSet rest k v

/-- Removal of a key, modelling `ConfigParser.remove_option`. -/
def alistRemove {α : Type} (l : List (String × α)) (k : String) : List (String × α) :=
  l.filter (fun e => decide (¬ e.1 = k))

theorem alistGet_set_self {α : Type} (l : List (String × α)) (k : String) (v : α) :
    alistGet (alistSet l k v) k = some v := by
  induction l with
  | nil => simp [alistSet, alistGet]
  | cons e rest ih =>
    by_cases h : e.1 = k
    · simp [alistSet, h, alistGet]
    · simp [alistSet, h, alistGet, ih]

theorem alistGet_set_ne {α : Type} (l : List (String × α)) (k k2 : String) (v : α)
    (h : ¬ k2 = k) : alistGet (alistSet l k v) k2 = alistGet l k2 := by
  induction l with
  | nil =>
    simp only [alistSet, alistGet]
    rw [if_neg (fun hh => h hh.symm)]
  | cons e rest ih =>
    by_cases he : e.1 = k
    · rw [show alistSet (e :: rest) k v = (k, v) :: rest by simp [alistSet, he]]
      simp only [alistGet]
      rw [if_neg (fun hh => h hh.symm), if_neg (fun hh => h (he.symm.trans hh).symm)]
    · rw [show alistSet (e :: rest) k v = e :: alistSet rest k v by simp [alistSet, he]]
      simp only [alistGet, ih]

theorem alistGet_remove_self {α : Type} (l : List (String × α)) (k : String) :
    alistGet (alistRemove l k) k = none := by
  induction l with
  | nil => rfl
  | cons e rest ih =>
    by_cases h : e.1 = k
    · simpa [alistRemove, List.filter_cons, h] using ih
    · simpa [alistRemove, List.filter_cons, h, alistGet] using ih

theorem alistGet_remove_ne {α : Type} (l : List (String × α)) (k k2 : String)
    (h : ¬ k2 = k) : alistGet (alistRemove l k) k2 = alistGet l k2 := by
  induction l with
  | nil => rfl
  | cons e rest ih =>
    by_cases he : e.1 = k
    · have hne : ¬ e.1 = k2 := by rw [he]; exact fun hh => h hh.symm
      have hkk : ¬ k = k2 := fun hh => h hh.symm
      simpa [alistRemove, List.filter_cons, he, alistGet, hne, hkk] using ih
    · by_cases he2 : e.1 = k2
      · simp [alistRemove, List.filter_cons, he, alistGet, he2, h]
      · simpa [alistRemove, List.filter_cons, he, alistGet, he2] using ih

/-! ## Message store (modelled from the spec) -/

/-- Modelled from the spec: a message is a mapping always containing a
`type` tag; the remaining fields are abstracted as an opaque body string.
The implementation module (broker/store.py) is not part of the excerpt. -/
structure Message where
  type : String
  body : String
deriving DecidableEq

/-- Modelled from the spec: the Message Store state — ordered pending queue
of (sequence number, message) pairs, the accepted type set, the persisted
`next_sequence` counter and the server acknowledgment watermark. -/
structure MessageStore where
  pending : List (Nat × Message)
  accepted_types : List String
  next_sequence : Nat
  server_ack_sequence : Nat
deriving DecidableEq

/-- Modelled from the spec: a fresh store; the first assigned sequence
number is 1 (per the spec scenario), so the watermark starts at 0. -/
def initialMessageStore (accepted : List String) : MessageStore :=
  { pending := [], accepted_types := accepted,
    next_sequence := 1, server_ack_sequence := 0 }

/-- Modelled from the spec: `add(message)` assigns the next sequence number,
appends to pending and returns the sequence number; it fails (returns
`none`, leaving the store unchanged) when the type is not accepted
(`TypeRejected`). -/
def MessageStore.add (s : MessageStore) (m : Message) : MessageStore × Option Nat :=
  if m.type ∈ s.accepted_types then
    ({ s with pending := s.pending ++ [(s.next_sequence, m)],
              next_sequence := s.next_sequence + 1 },
     some s.next_sequence)
  else (s, none)

/-- Modelled from the spec: `acknowledge(sequence)` removes all pending
messages with sequence ≤ the given value and records the watermark; a value
below the current watermark is a no-op (the watermark never moves backward). -/
def MessageStore.acknowledge (s : MessageStore) (n : Nat) : MessageStore :=
  if n < s.server_ack_sequence then s
  else { s with pending := s.pending.filter (fun p => decide (n < p.1)),
                server_ack_sequence := n }

/-- Modelled from the spec: `set_accepted_types(types)` replaces the
accepted-type set and drops every pending message whose type is no longer
accepted. -/
def MessageStore.set_accepted_types (s : MessageStore) (ts : List String) : MessageStore :=
  { s with accepted_types := ts,
           pending := s.pending.filter (fun p => decide (p.2.type ∈ ts)) }

/-- Modelled from the spec: `get_pending_messages(max_count)` returns up to
`max_count` pending messages in sequence order without mutating state. -/
def MessageStore.get_pending_messages (s : MessageStore) (max_count : Nat) :
    List (Nat × Message) :=
  s.pending.take max_count

/-- Reachable-state wellformedness: every pending sequence number is above
the acknowledgment watermark. -/
def storeWF (s : MessageStore) : Prop :=
  ∀ p ∈ s.pending, s.server_ack_sequence < p.1

instance (s : MessageStore) : Decidable (storeWF s) := by
  unfold storeWF; infer_instance

/-! ## Operation traces over the message store -/

/-- Modelled from the spec: the mutating operations a client of the Message
Store may issue. -/
inductive Op where
  | add : Message → Op
  | acknowledge : Nat → Op
  | setTypes : List String → Op

/-- One operation applied to a store; `add` also yields the sequence number
it returned (when the message was accepted). -/
def stepOp (s : MessageStore) : Op → MessageStore × Option Nat
  | Op.add m => s.add m
  | Op.acknowledge n => (s.acknowledge n, none)
  | Op.setTypes ts => (s.set_accepted_types ts, none)

/-- Run a list of operations, collecting every sequence number returned by a
successful `add` in order. -/
def runOps (s : MessageStore) : List Op → MessageStore × List Nat
  | [] => (s, [])
  | op :: rest =>
    let r := stepOp s op
    let r2 := runOps r.1 rest
    (r2.1, r.2.toList ++ r2.2)

theorem stepOp_next_mono (s : MessageStore) (op : Op) :
    s.next_sequence ≤ (stepOp s op).1.next_sequence := by
  cases op with
  | add m =>
    simp only [stepOp, MessageStore.add]
    by_cases h : m.type ∈ s.accepted_types
    · simp [h]
    · simp [h]
  | acknowledge n =>
    simp only [stepOp, MessageStore.acknowledge]
    by_cases h : n < s.server_ack_sequence
    · simp [h]
    · simp [h]
  | setTypes ts => exact Nat.le_refl _

theorem stepOp_result_eq (s : MessageStore) (op : Op) (r : Nat)
    (h : (stepOp s op).2 = some r) :
    r = s.next_sequence ∧ (stepOp s op).1.next_sequence = s.next_sequence + 1 := by
  cases op with
  | add m =>
    simp only [stepOp, MessageStore.add] at h ⊢
    by_cases hm : m.type ∈ s.accepted_types
    · simp [hm] at h ⊢
      exact h.symm
    · simp [hm] at h
  | acknowledge n => simp [stepOp] at h
  | setTypes ts => simp [stepOp] at h

theorem runOps_results_lb (ops : List Op) (s : MessageStore) :
    ∀ r ∈ (runOps s ops).2, s.next_sequence ≤ r := by
  induction ops generalizing s with
  | nil => intro r hr; simp [runOps] at hr
  | cons op rest ih =>
    intro r hr
    simp only [runOps, List.mem_append] at hr
    rcases hr with hr | hr
    · rcases Option.mem_toList.mp hr with hsome
      have := stepOp_result_eq s op r hsome
      omega
    · have h1 := ih (stepOp s op).1 r hr
      have h2 := stepOp_next_mono s op
      omega

theorem runOps_chain (ops : List Op) (s : MessageStore) :
    List.Chain' (fun a b => a < b) (runOps s ops).2 := by
  induction ops generalizing s with
  | nil => simp [runOps]
  | cons op rest ih =>
    simp only [runOps]
    cases hres : (stepOp s op).2 with
    | none => simpa using ih (stepOp s op).1
    | some r =>
      simp only [Option.toList, List.singleton_append]
      refine List.chain'_cons'.mpr ⟨?_, ih (stepOp s op).1⟩
      intro b hb
      have hbmem : b ∈ (runOps (stepOp s op).1 rest).2 := by
        cases hlist : (runOps (stepOp s op).1 rest).2 with
        | nil => simp [hlist] at hb
        | cons x xs =>
          simp [hlist] at hb
          simp [hlist, hb]
      have hlb := runOps_results_lb rest (stepOp s op).1 b hbmem
      have heq := stepOp_result_eq s op r hres
      omega

/-! ## Concrete scenario data -/

def msgA : Message := { type := "pkg", body := "a" }

def msgB : Message := { type := "other", body := "b" }

def scenarioStore : MessageStore := initialMessageStore ["pkg"]

def scenarioOps : List Op :=
  [Op.add msgA, Op.add msgA, Op.add msgA, Op.acknowledge 2]

/-- C1: sequence numbers returned by `add` over any operation trace are
strictly increasing (hence unique and never reused after acknowledgment);
in the spec scenario, adds return 1, 2, 3, acknowledging 2 leaves pending
= {3}, and the next add returns 4. -/
theorem c1_sequence_numbers_strictly_increasing :
    (∀ (s : MessageStore) (ops : List Op),
        List.Chain' (fun a b => a < b) (runOps s ops).2)
  ∧ (runOps scenarioStore scenarioOps).2 = [1, 2, 3]
  ∧ (runOps scenarioStore scenarioOps).1.pending.map Prod.fst = [3]
  ∧ ((runOps scenarioStore scenarioOps).1.add msgA).2 = some 4 :=
  ⟨fun s ops => runOps_chain ops s, by decide, by decide, by decide⟩

/-- C2: after `acknowledge n` no pending message (hence no result of
`get_pending_messages`) has sequence ≤ n; acknowledging below the watermark
is a no-op; `acknowledge` is idempotent; the watermark never moves
backward. -/
theorem c2_acknowledge_monotone_idempotent (s : MessageStore) (n : Nat)
    (h : storeWF s) :
    (∀ k p, p ∈ (s.acknowledge n).get_pending_messages k → n < p.1)
  ∧ (n < s.server_ack_sequence → s.acknowledge n = s)
  ∧ ((s.acknowledge n).acknowledge n = s.acknowledge n)
  ∧ s.server_ack_sequence ≤ (s.acknowledge n).server_ack_sequence := by
  by_cases hn : n < s.server_ack_sequence
  · have hs : s.acknowledge n = s := by simp [MessageStore.acknowledge, hn]
    refine ⟨?_, fun _ => hs, ?_, ?_⟩
    · intro k p hp
      rw [hs] at hp
      have hp2 : p ∈ s.pending := List.take_subset _ _ hp
      exact Nat.lt_trans hn (h p hp2)
    · rw [hs, hs]
    · rw [hs]
  · have hack : s.acknowledge n =
        { s with pending := s.pending.filter (fun p => decide (n < p.1)),
                 server_ack_sequence := n } := by
      simp [MessageStore.acknowledge, hn]
    refine ⟨?_, ?_, ?_, ?_⟩
    · intro k p hp
      rw [hack] at hp
      have hp2 := List.take_subset _ _ hp
      have hmem := List.mem_filter.mp hp2
      exact of_decide_eq_true hmem.2
    · intro hlt; exact absurd hlt hn
    · rw [hack]
      simp [MessageStore.acknowledge, List.filter_filter]
    · rw [hack]
      exact Nat.le_of_not_lt hn

theorem c2_witness :
    storeWF scenarioStore
  ∧ ((∀ k p, p ∈ (scenarioStore.acknowledge 0).get_pending_messages k → 0 < p.1)
   ∧ (0 < scenarioStore.server_ack_sequence →
        scenarioStore.acknowledge 0 = scenarioStore)
   ∧ ((scenarioStore.acknowledge 0).acknowledge 0 = scenarioStore.acknowledge 0)
   ∧ scenarioStore.server_ack_sequence ≤
       (scenarioStore.acknowledge 0).server_ack_sequence) :=
  ⟨by decide, c2_acknowledge_monotone_idempotent scenarioStore 0 (by decide)⟩

/-- C4: `add` fails (returns no sequence number) exactly when the message
type is not accepted; a rejected add leaves the store unchanged; an
accepted add appends the message with the assigned sequence number and
returns that number. -/
theorem c4_add_rejects_unaccepted_types (s : MessageStore) (m : Message) :
    ((s.add m).2 = none ↔ m.type ∉ s.accepted_types)
  ∧ (m.type ∉ s.accepted_types → (s.add m).1 = s)
  ∧ (m.type ∈ s.accepted_types →
       (s.add m).1.pending = s.pending ++ [(s.next_sequence, m)]
     ∧ (s.add m).1.next_sequence = s.next_sequence + 1
     ∧ (s.add m).2 = some s.next_sequence) := by
  by_cases h : m.type ∈ s.accepted_types
  · exact ⟨by simp [MessageStore.add, h],
           fun hn => absurd h hn,
           fun _ => by simp [MessageStore.add, h]⟩
  · exact ⟨by simp [MessageStore.add, h],
           fun _ => by simp [MessageStore.add, h],
           fun hm => absurd hm h⟩

theorem c4_witness :
    msgB.type ∉ scenarioStore.accepted_types
  ∧ (scenarioStore.add msgB).1 = scenarioStore
  ∧ (scenarioStore.add msgB).2 = none :=
  ⟨by decide,
   (c4_add_rejects_unaccepted_types scenarioStore msgB).2.1 (by decide),
   (c4_add_rejects_unaccepted_types scenarioStore msgB).1.mpr (by decide)⟩

/-- C5: `set_accepted_types` keeps exactly the pending messages whose type
is still accepted — each kept with the same sequence number and content, in
the same relative order (sublist) — and drops the rest; afterward the
accepted-type set is the given one. -/
theorem c5_set_accepted_types_frame (s : MessageStore) (ts : List String) :
    (∀ p ∈ s.pending, p.2.type ∈ ts → p ∈ (s.set_accepted_types ts).pending)
  ∧ (∀ p ∈ (s.set_accepted_types ts).pending, p ∈ s.pending ∧ p.2.type ∈ ts)
  ∧ List.Sublist (s.set_accepted_types ts).pending s.pending
  ∧ (s.set_accepted_types ts).accepted_types = ts := by
  refine ⟨?_, ?_, ?_, rfl⟩
  · intro p hp hty
    simp [MessageStore.set_accepted_types, List.mem_filter, hp, hty]
  · intro p hp
    simp only [MessageStore.set_accepted_types] at hp
    have hmem := List.mem_filter.mp hp
    exact ⟨hmem.1, of_decide_eq_true hmem.2⟩
  · exact List.filter_sublist _

theorem c5_witness :
    (∀ p ∈ scenarioStore.pending, p.2.type ∈ ["pkg"] →
        p ∈ (scenarioStore.set_accepted_types ["pkg"]).pending)
  ∧ (∀ p ∈ (scenarioStore.set_accepted_types ["pkg"]).pending,
        p ∈ scenarioStore.pending ∧ p.2.type ∈ ["pkg"])
  ∧ List.Sublist (scenarioStore.set_accepted_types ["pkg"]).pending
      scenarioStore.pending
  ∧ (scenarioStore.set_accepted_types ["pkg"]).accepted_types = ["pkg"] :=
  c5_set_accepted_types_frame scenarioStore ["pkg"]

/-! ## The store invariant (C3) -/

/-- The contiguous-suffix property from the spec: the pending sequence
numbers are a suffix of the list of all assigned but not yet acknowledged
sequence numbers, i.e. of `[server_ack_sequence + 1, ..., next_sequence - 1]`. -/
def contiguousPending (s : MessageStore) : Prop :=
  s.pending.map Prod.fst <:+
    List.range' (s.server_ack_sequence + 1)
      (s.next_sequence - 1 - s.server_ack_sequence)

/-- The spec invariant of the Message Store: the watermark stays below the
counter, and the pending queue is a contiguous suffix of the unacknowledged
assigned sequence numbers. -/
def storeInvariant (s : MessageStore) : Prop :=
  s.server_ack_sequence ≤ s.next_sequence - 1 ∧ contiguousPending s

instance (s : MessageStore) : Decidable (storeInvariant s) := by
  unfold storeInvariant contiguousPending; infer_instance

theorem map_fst_filter_lt (l : List (Nat × Message)) (n : Nat) :
    (l.filter (fun p => decide (n < p.1))).map Prod.fst =
      (l.map Prod.fst).filter (fun x => decide (n < x)) := by
  induction l with
  | nil => rfl
  | cons e rest ih => by_cases h : n < e.1 <;> simp [List.filter_cons, h, ih]

theorem filter_lt_range'_of_lt (n : Nat) : ∀ (len a : Nat), n < a →
    (List.range' a len).filter (fun x => decide (n < x)) = List.range' a len := by
  intro len
  induction len with
  | zero => intro a _; rfl
  | succ k ih =>
    intro a ha
    rw [List.range'_succ, List.filter_cons]
    simp only [decide_eq_true_eq, ha, if_pos]
    rw [ih (a + 1) (Nat.lt_succ_of_lt ha)]

theorem filter_lt_range'_split (n : Nat) : ∀ (len a : Nat), a ≤ n + 1 →
    (List.range' a len).filter (fun x => decide (n < x)) =
      List.range' (n + 1) (a + len - (n + 1)) := by
  intro len
  induction len with
  | zero =>
    intro a ha
    rw [show a + 0 - (n + 1) = 0 from by omega]
    rfl
  | succ k ih =>
    intro a ha
    rw [List.range'_succ, List.filter_cons]
    by_cases hna : n < a
    · have haeq : a = n + 1 := by omega
      simp only [decide_eq_true_eq, hna, if_pos]
      rw [filter_lt_range'_of_lt n k (a + 1) (Nat.lt_succ_of_lt hna), haeq]
      rw [show n + 1 + (k + 1) - (n + 1) = k + 1 from by omega]
      rw [List.range'_succ]
    · simp only [decide_eq_true_eq, hna, if_neg, ite_false]
      rw [ih (a + 1) (by omega)]
      rw [show a + 1 + k = a + (k + 1) from by omega]

/-- Reachable trace producing a store whose pending queue holds sequence
numbers 1, 2, 3 with alternating types. -/
def cexStore : MessageStore :=
  (runOps (initialMessageStore ["pkg", "other"])
    [Op.add msgA, Op.add msgB, Op.add msgA]).1

/-- C3 counterexample: `set_accepted_types` does not preserve the spec
invariant — purging a mid-queue message of a no-longer-accepted type leaves
a non-contiguous pending set (sequence numbers {1, 3} with 2 assigned and
unacknowledged). -/
theorem c3_counterexample :
    ¬ (∀ s : MessageStore, storeInvariant s →
         ∀ ts, storeInvariant (s.set_accepted_types ts)) := fun h =>
  absurd (h cexStore (by decide) ["pkg"]) (by decide)

/-- C3 (amended): every operation preserves the watermark bound
`server_ack_sequence ≤ next_sequence - 1`; `add` and `acknowledge` (for an
assigned sequence number) also preserve the contiguous-suffix property,
while `set_accepted_types` may break contiguity (and
`get_pending_messages` does not mutate the store at all). -/
theorem c3_amended (s : MessageStore) (h1 : 1 ≤ s.next_sequence)
    (hinv : storeInvariant s) :
    (∀ m, storeInvariant (s.add m).1)
  ∧ (∀ n, n ≤ s.next_sequence - 1 → storeInvariant (s.acknowledge n))
  ∧ (∀ ts, (s.set_accepted_types ts).server_ack_sequence ≤
       (s.set_accepted_types ts).next_sequence - 1) := by
  obtain ⟨hbound, hsfx⟩ := hinv
  refine ⟨?_, ?_, ?_⟩
  · intro m
    by_cases hm : m.type ∈ s.accepted_types
    · simp only [MessageStore.add, if_pos hm]
      constructor
      · simp only []
        omega
      · unfold contiguousPending
        simp only [List.map_append, List.map_cons, List.map_nil]
        obtain ⟨t, ht⟩ := hsfx
        refine ⟨t, ?_⟩
        have hk : s.next_sequence + 1 - 1 - s.server_ack_sequence =
            (s.next_sequence - 1 - s.server_ack_sequence) + 1 := by omega
        have h2 : s.server_ack_sequence + 1 +
            1 * (s.next_sequence - 1 - s.server_ack_sequence) = s.next_sequence := by
          omega
        rw [← List.append_assoc, ht, hk, List.range'_concat, h2]
    · simp only [MessageStore.add, if_neg hm]
      exact ⟨hbound, hsfx⟩
  · intro n hn
    by_cases hlt : n < s.server_ack_sequence
    · simp only [MessageStore.acknowledge, if_pos hlt]
      exact ⟨hbound, hsfx⟩
    · simp only [MessageStore.acknowledge, if_neg hlt]
      constructor
      · simp only []
        omega
      · unfold contiguousPending
        simp only [map_fst_filter_lt]
        obtain ⟨t, ht⟩ := hsfx
        refine ⟨t.filter (fun x => decide (n < x)), ?_⟩
        rw [← List.filter_append, ht,
            filter_lt_range'_split n _ _ (by omega),
            show s.server_ack_sequence + 1 +
              (s.next_sequence - 1 - s.server_ack_sequence) - (n + 1) =
              s.next_sequence - 1 - n from by omega]
  · intro ts
    simpa [MessageStore.set_accepted_types] using hbound

theorem c3_amended_witness :
    (1 ≤ cexStore.next_sequence ∧ storeInvariant cexStore)
  ∧ ((∀ m, storeInvariant (cexStore.add m).1)
   ∧ (∀ n, n ≤ cexStore.next_sequence - 1 → storeInvariant (cexStore.acknowledge n))
   ∧ (∀ ts, (cexStore.set_accepted_types ts).server_ack_sequence ≤
        (cexStore.set_accepted_types ts).next_sequence - 1)) :=
  ⟨⟨by decide, by decide⟩, c3_amended cexStore (by decide) (by decide)⟩

/-! ## Persisted store (modelled from the spec) -/

/-- Modelled from the spec: the Persisted Store is an on-disk snapshot
keyed by dotted paths; the parts backing the Message Store are the two
counters, held here as natural-number bindings. -/
abbrev PersistData := List (String × Nat)

def nextSequenceKey : String := "message-store.next-sequence"

def serverSequenceKey : String := "message-store.server-ack-sequence"

/-- Modelled from the spec: flush the sequence counter and acknowledgment
watermark of a Message Store into the Persisted Store. -/
def saveMessageStore (p : PersistData) (s : MessageStore) : PersistData :=
  alistSet (alistSet p nextSequenceKey s.next_sequence)
    serverSequenceKey s.server_ack_sequence

/-- Modelled from the spec: rebuild a Message Store from the Persisted
Store at startup; absent keys fall back to the fresh-store values. -/
def loadMessageStore (p : PersistData) (accepted : List String) : MessageStore :=
  { pending := [],
    accepted_types := accepted,
    next_sequence := (alistGet p nextSequenceKey).getD 1,
    server_ack_sequence := (alistGet p serverSequenceKey).getD 0 }

/-- C6: persisting any Message Store state and loading it back reproduces
identical values of `next_sequence` and the acknowledgment watermark, for
any prior contents of the Persisted Store. -/
theorem c6_persist_round_trip (p : PersistData) (s : MessageStore)
    (accepted : List String) :
    (loadMessageStore (saveMessageStore p s) accepted).next_sequence =
      s.next_sequence
  ∧ (loadMessageStore (saveMessageStore p s) accepted).server_ack_sequence =
      s.server_ack_sequence := by
  have hne : ¬ nextSequenceKey = serverSequenceKey := by decide
  constructor
  · simp only [loadMessageStore, saveMessageStore]
    rw [alistGet_set_ne _ _ _ _ hne, alistGet_set_self]
    rfl
  · simp only [loadMessageStore, saveMessageStore]
    rw [alistGet_set_self]
    rfl

/-! ## Exchange engine failure handling (modelled from the spec) -/

/-- Modelled from the spec: the failure-handling state of the Exchange
Engine — the count of consecutive transmission failures together with the
configured base interval and the backoff ceiling. -/
structure ExchangeState where
  failure_count : Nat
  exchange_interval : Nat
  max_backoff : Nat
deriving DecidableEq

/-- Modelled from the spec: a transmission failure increments
`failure_count`. -/
def exchangeFailure (e : ExchangeState) : ExchangeState :=
  { e with failure_count := e.failure_count + 1 }

/-- Modelled from the spec: a successful exchange resets `failure_count`
to 0. -/
def exchangeSuccess (e : ExchangeState) : ExchangeState :=
  { e with failure_count := 0 }

/-- Modelled from the spec: the delay before the next attempt — the regular
interval with no failures, otherwise exponential backoff bounded by the
configured maximum (the spec leaves the exact curve open and prescribes
exponential with a configurable ceiling). -/
def retryDelay (e : ExchangeState) : Nat :=
  if e.failure_count = 0 then e.exchange_interval
  else min (e.exchange_interval * 2 ^ e.failure_count) e.max_backoff

/-- C7: from a failure-free state, one transport failure makes
`failure_count` 1 and pushes the retry delay strictly above the base
interval; every further failure increments the count, and any success
resets it to 0. -/
theorem c7_failure_count_backoff (e : ExchangeState)
    (h0 : e.failure_count = 0) (hpos : 0 < e.exchange_interval)
    (hmax : e.exchange_interval < e.max_backoff) :
    (exchangeFailure e).failure_count = 1
  ∧ e.exchange_interval < retryDelay (exchangeFailure e)
  ∧ (∀ e2 : ExchangeState,
       (exchangeFailure e2).failure_count = e2.failure_count + 1)
  ∧ (∀ e2 : ExchangeState, (exchangeSuccess e2).failure_count = 0) := by
  refine ⟨by simp [exchangeFailure, h0], ?_, fun e2 => rfl, fun e2 => rfl⟩
  simp only [retryDelay, exchangeFailure, h0]
  norm_num
  constructor
  · omega
  · exact hmax

theorem c7_witness :
    (ExchangeState.mk 0 900 3600).failure_count = 0
  ∧ 0 < (ExchangeState.mk 0 900 3600).exchange_interval
  ∧ (ExchangeState.mk 0 900 3600).exchange_interval <
      (ExchangeState.mk 0 900 3600).max_backoff
  ∧ ((exchangeFailure (ExchangeState.mk 0 900 3600)).failure_count = 1
   ∧ (ExchangeState.mk 0 900 3600).exchange_interval <
       retryDelay (exchangeFailure (ExchangeState.mk 0 900 3600))
   ∧ (∀ e2 : ExchangeState,
        (exchangeFailure e2).failure_count = e2.failure_count + 1)
   ∧ (∀ e2 : ExchangeState, (exchangeSuccess e2).failure_count = 0)) :=
  ⟨rfl, by decide, by decide,
   c7_failure_count_backoff (ExchangeState.mk 0 900 3600) rfl (by decide) (by decide)⟩

/-! ## Layered configuration (landscape/deployment.py) -/

/-- Values held by the configuration layers: Python strings, booleans
(from store_true options) and None. Every option registered by
`make_parser` is untyped in optparse, so `convert_value` is the identity
and is not modelled separately. -/
inductive ConfigValue where
  | str : String → ConfigValue
  | boolean : Bool → ConfigValue
  | none : ConfigValue
deriving DecidableEq

/-- State of a `BaseConfiguration` object: the four option sources searched
by `__getattr__` in precedence order, the long option strings known to the
parser, and the class-level `unsaved_options`. -/
structure BaseConfiguration where
  set_options : List (String × ConfigValue)
  command_line_options : List (String × ConfigValue)
  config_file_options : List (String × ConfigValue)
  command_line_defaults : List (String × ConfigValue)
  parser_long_options : List String
  unsaved_options : List String

/-- Embeds `name.replace("_", "-")` from `BaseConfiguration.__getattr__`,
as a character-wise map over the string contents. -/
def underscoreToDash (n : String) : String :=
  String.mk (n.data.map (fun c => if c = '_' then '-' else c))

/-- Result of `__getattr__`: a value (possibly None) or AttributeError. -/
inductive GetattrResult where
  | found : ConfigValue → GetattrResult
  | attrError : GetattrResult
deriving DecidableEq

/-- Embeds `BaseConfiguration.__getattr__`: search `_set_options`,
`_command_line_options`, `_config_file_options`,
`_command_line_defaults` in order; fall back to None when the parser knows
the option `--name` (with underscores mapped to dashes), else raise
AttributeError. -/
def BaseConfiguration.getattr (c : BaseConfiguration) (name : String) :
    GetattrResult :=
  match alistGet c.set_options name with
  | some v => GetattrResult.found v
  | Option.none =>
    match alistGet c.command_line_options name with
    | some v => GetattrResult.found v
    | Option.none =>
      match alistGet c.config_file_options name with
      | some v => GetattrResult.found v
      | Option.none =>
        match alistGet c.command_line_defaults name with
        | some v => GetattrResult.found v
        | Option.none =>
          if ("--" ++ underscoreToDash name) ∈ c.parser_long_options then
            GetattrResult.found ConfigValue.none
          else GetattrResult.attrError

/-- C8: `__getattr__` returns the value from the first source, in the order
explicitly-set, command-line, config-file, command-line defaults, that
defines the name; when none defines it, it returns None exactly when the
parser knows the option, and raises AttributeError otherwise. -/
theorem c8_layered_configuration_lookup (c : BaseConfiguration) (name : String) :
    (∀ v, alistGet c.set_options name = some v →
        c.getattr name = GetattrResult.found v)
  ∧ (∀ v, alistGet c.set_options name = Option.none →
        alistGet c.command_line_options name = some v →
        c.getattr name = GetattrResult.found v)
  ∧ (∀ v, alistGet c.set_options name = Option.none →
        alistGet c.command_line_options name = Option.none →
        alistGet c.config_file_options name = some v →
        c.getattr name = GetattrResult.found v)
  ∧ (∀ v, alistGet c.set_options name = Option.none →
        alistGet c.command_line_options name = Option.none →
        alistGet c.config_file_options name = Option.none →
        alistGet c.command_line_defaults name = some v →
        c.getattr name = GetattrResult.found v)
  ∧ (alistGet c.set_options name = Option.none →
        alistGet c.command_line_options name = Option.none →
        alistGet c.config_file_options name = Option.none →
        alistGet c.command_line_defaults name = Option.none →
        ("--" ++ underscoreToDash name) ∈ c.parser_long_options →
        c.getattr name = GetattrResult.found ConfigValue.none)
  ∧ (alistGet c.set_options name = Option.none →
        alistGet c.command_line_options name = Option.none →
        alistGet c.config_file_options name = Option.none →
        alistGet c.command_line_defaults name = Option.none →
        ("--" ++ underscoreToDash name) ∉ c.parser_long_options →
        c.getattr name = GetattrResult.attrError) := by
  refine ⟨?_, ?_, ?_, ?_, ?_, ?_⟩
  · intro v h1
    simp [BaseConfiguration.getattr, h1]
  · intro v h1 h2
    simp [BaseConfiguration.getattr, h1, h2]
  · intro v h1 h2 h3
    simp [BaseConfiguration.getattr, h1, h2, h3]
  · intro v h1 h2 h3 h4
    simp [BaseConfiguration.getattr, h1, h2, h3, h4]
  · intro h1 h2 h3 h4 h5
    simp [BaseConfiguration.getattr, h1, h2, h3, h4, h5]
  · intro h1 h2 h3 h4 h5
    simp [BaseConfiguration.getattr, h1, h2, h3, h4, h5]

/-- Sample configuration state mirroring the default parser of
deployment.py: `--config` with no default and `--bus` defaulting to
"system", a config file setting the bus, and a command line setting the
log level. -/
def sampleConfig : BaseConfiguration :=
  { set_options := [],
    command_line_options := [("log_level", ConfigValue.str "debug")],
    config_file_options := [("bus", ConfigValue.str "session")],
    command_line_defaults := [("bus", ConfigValue.str "system")],
    parser_long_options := ["--config", "--bus", "--log-level"],
    unsaved_options := [] }

theorem c8_witness :
    sampleConfig.getattr "bus" = GetattrResult.found (ConfigValue.str "session")
  ∧ sampleConfig.getattr "config" = GetattrResult.found ConfigValue.none
  ∧ sampleConfig.getattr "missing" = GetattrResult.attrError :=
  ⟨(c8_layered_configuration_lookup sampleConfig "bus").2.2.1
      (ConfigValue.str "session") (by decide) (by decide) (by decide),
   (c8_layered_configuration_lookup sampleConfig "config").2.2.2.2.1
      (by decide) (by decide) (by decide) (by decide) (by decide),
   (c8_layered_configuration_lookup sampleConfig "missing").2.2.2.2.2
      (by decide) (by decide) (by decide) (by decide) (by decide)⟩

/-! ## Configuration writing (BaseConfiguration.write) -/

/-- Embeds Python `dict.get(name)` with its None default, as used by
`value == self._command_line_defaults.get(name)`. -/
def pyGet (l : List (String × ConfigValue)) (n : String) : ConfigValue :=
  (alistGet l n).getD ConfigValue.none

/-- Embeds the dict updates building `all_options` in `write`: one source
updated by another, later bindings overriding earlier ones. -/
def updateAll (base upd : List (String × ConfigValue)) :
    List (String × ConfigValue) :=
  upd.foldl (fun acc e => alistSet acc e.1 e.2) base

/-- The `all_options` dict of `write`: config-file options, updated by
command-line options, updated by explicitly set options. -/
def allOptions (c : BaseConfiguration) : List (String × ConfigValue) :=
  updateAll (updateAll c.config_file_options c.command_line_options)
    c.set_options

/-- Embeds one iteration of the write loop: `config` and unsaved options
are skipped; an option whose value equals its command-line default is
removed from the file; any other option is set in the file section. -/
def writeStep (c : BaseConfiguration) (file : List (String × ConfigValue))
    (e : String × ConfigValue) : List (String × ConfigValue) :=
  if e.1 = "config" ∨ e.1 ∈ c.unsaved_options then file
  else if e.2 = pyGet c.command_line_defaults e.1 then alistRemove file e.1
  else alistSet file e.1 e.2

/-- Embeds `BaseConfiguration.write`: the existing file section is re-read
and every entry of `all_options` is applied to it in turn. -/
def BaseConfiguration.writeFile (c : BaseConfiguration)
    (oldFile : List (String × ConfigValue)) : List (String × ConfigValue) :=
  (allOptions c).foldl (writeStep c) oldFile

theorem writeStep_get_other (c : BaseConfiguration)
    (f : List (String × ConfigValue)) (e : String × ConfigValue) (n : String)
    (h : e.1 = n → n = "config" ∨ n ∈ c.unsaved_options) :
    alistGet (writeStep c f e) n = alistGet f n := by
  unfold writeStep
  by_cases hskip : e.1 = "config" ∨ e.1 ∈ c.unsaved_options
  · rw [if_pos hskip]
  · rw [if_neg hskip]
    by_cases he : e.1 = n
    · rcases h he with h1 | h1
      · exact absurd (Or.inl (he.trans h1)) hskip
      · exact absurd (Or.inr (he.symm ▸ h1)) hskip
    · have hne : ¬ n = e.1 := fun hh => he hh.symm
      by_cases hdef : e.2 = pyGet c.command_line_defaults e.1
      · rw [if_pos hdef, alistGet_remove_ne _ _ _ hne]
      · rw [if_neg hdef, alistGet_set_ne _ _ _ _ hne]

theorem writeFold_get_other (c : BaseConfiguration)
    (l : List (String × ConfigValue)) (f : List (String × ConfigValue))
    (n : String)
    (h : ∀ e ∈ l, e.1 = n → n = "config" ∨ n ∈ c.unsaved_options) :
    alistGet (l.foldl (writeStep c) f) n = alistGet f n := by
  induction l generalizing f with
  | nil => rfl
  | cons e rest ih =>
    simp only [List.foldl_cons]
    rw [ih _ (fun e2 he2 => h e2 (List.mem_cons_of_mem e he2)),
        writeStep_get_other c f e n (h e (List.mem_cons_self e rest))]

theorem alistGet_eq_none_forall {α : Type} (l : List (String × α)) (n : String)
    (h : alistGet l n = none) : ∀ e ∈ l, ¬ e.1 = n := by
  induction l with
  | nil => intro e he; simp at he
  | cons e2 rest ih =>
    intro e he
    simp only [alistGet] at h
    by_cases h2 : e2.1 = n
    · rw [if_pos h2] at h
      exact absurd h (by simp)
    · rw [if_neg h2] at h
      rcases List.mem_cons.mp he with rfl | hmem
      · exact h2
      · exact ih h e hmem

/-- C9: `write` leaves every file option outside `all_options` untouched,
never writes (or removes) the `config` option or any option in
`unsaved_options`, and removes every managed option whose current value
equals its command-line default. -/
theorem c9_write_frame (c : BaseConfiguration)
    (old : List (String × ConfigValue))
    (hnd : ((allOptions c).map Prod.fst).Nodup) :
    (∀ n, alistGet (allOptions c) n = none →
        alistGet (c.writeFile old) n = alistGet old n)
  ∧ (∀ n, (n = "config" ∨ n ∈ c.unsaved_options) →
        alistGet (c.writeFile old) n = alistGet old n)
  ∧ (∀ e ∈ allOptions c, ¬ e.1 = "config" → e.1 ∉ c.unsaved_options →
        e.2 = pyGet c.command_line_defaults e.1 →
        alistGet (c.writeFile old) e.1 = none) := by
  refine ⟨?_, ?_, ?_⟩
  · intro n hn
    exact writeFold_get_other c _ old n
      (fun e he h1 => absurd h1 (alistGet_eq_none_forall _ n hn e he))
  · intro n hn
    exact writeFold_get_other c _ old n (fun e _ _ => hn)
  · intro e hmem h1 h2 hdef
    obtain ⟨l1, l2, hsplit⟩ := List.append_of_mem hmem
    have hnotin : ¬ e.1 ∈ l2.map Prod.fst := by
      rw [hsplit] at hnd
      simp only [List.map_append, List.map_cons] at hnd
      exact (List.nodup_cons.mp hnd.of_append_right).1
    have hside : ∀ e2 ∈ l2, e2.1 = e.1 →
        e.1 = "config" ∨ e.1 ∈ c.unsaved_options := by
      intro e2 he2 heq
      exact absurd (heq ▸ List.mem_map_of_mem Prod.fst he2) hnotin
    unfold BaseConfiguration.writeFile
    rw [hsplit, List.foldl_append, List.foldl_cons,
        writeFold_get_other c l2 _ e.1 hside]
    unfold writeStep
    rw [if_neg (fun hh => hh.elim h1 h2), if_pos hdef]
    exact alistGet_remove_self _ _

/-- Sample state for the write witness: the bus option is back at its
default, a data path is explicitly set, and the file holds an unrelated
option. -/
def writeConfig1 : BaseConfiguration :=
  { set_options := [("data_path", ConfigValue.str "/tmp/lc")],
    command_line_options := [("bus", ConfigValue.str "system")],
    config_file_options := [],
    command_line_defaults := [("bus", ConfigValue.str "system")],
    parser_long_options := ["--config", "--bus", "--data-path"],
    unsaved_options := ["otp"] }

def oldFile1 : List (String × ConfigValue) :=
  [("url", ConfigValue.str "https://example.com/message-system"),
   ("bus", ConfigValue.str "system")]

theorem c9_witness :
    ((allOptions writeConfig1).map Prod.fst).Nodup
  ∧ ((∀ n, alistGet (allOptions writeConfig1) n = none →
        alistGet (writeConfig1.writeFile oldFile1) n = alistGet oldFile1 n)
   ∧ (∀ n, (n = "config" ∨ n ∈ writeConfig1.unsaved_options) →
        alistGet (writeConfig1.writeFile oldFile1) n = alistGet oldFile1 n)
   ∧ (∀ e ∈ allOptions writeConfig1, ¬ e.1 = "config" →
        e.1 ∉ writeConfig1.unsaved_options →
        e.2 = pyGet writeConfig1.command_line_defaults e.1 →
        alistGet (writeConfig1.writeFile oldFile1) e.1 = none)) :=
  ⟨by decide, c9_write_frame writeConfig1 oldFile1 (by decide)⟩

/-! ## Virtualization detection (landscape/lib/vm_info.py) -/

/-- Abstraction of the filesystem under the given root path: which
relative paths exist, and the contents of readable files. -/
structure FileSystem where
  pathExists : String → Bool
  readFile : String → String

/-- Character-wise comparison of a candidate needle against the start of a
list, modelling the start of a Python substring match. -/
def startsWithChars : List Char → List Char → Bool
  | [], _ => true
  | _ :: _, [] => false
  | a :: as, b :: bs => a == b && startsWithChars as bs

/-- Substring search over character lists, modelling the Python
`"QEMU Virtual CPU" in cpuinfo` containment test. -/
def containsChars (needle : List Char) : List Char → Bool
  | [] => needle.isEmpty
  | b :: rest => startsWithChars needle (b :: rest) || containsChars needle rest

/-- The marker string searched for in /proc/cpuinfo. -/
def qemuMarker : List Char := "QEMU Virtual CPU".toList

/-- Embeds `get_vm_info`: `proc/vz` means openvz, else any of the three xen
paths means xen; afterwards, a cpuinfo file containing the QEMU marker
overrides the result with kvm; with no marker found the empty string is
returned. -/
def get_vm_info (fs : FileSystem) : String :=
  let virt0 :=
    if fs.pathExists "proc/vz" then "openvz"
    else if fs.pathExists "proc/sys/xen" || fs.pathExists "sys/bus/xen" ||
            fs.pathExists "proc/xen" then "xen"
    else ""
  if fs.pathExists "proc/cpuinfo" then
    if containsChars qemuMarker (fs.readFile "proc/cpuinfo").toList then "kvm"
    else virt0
  else virt0

/-- Bool view of the kvm detection branch. -/
def kvmDetected (fs : FileSystem) : Bool :=
  fs.pathExists "proc/cpuinfo" &&
    containsChars qemuMarker (fs.readFile "proc/cpuinfo").toList

/-- Bool view of the xen path detection. -/
def xenDetected (fs : FileSystem) : Bool :=
  fs.pathExists "proc/sys/xen" || fs.pathExists "sys/bus/xen" ||
    fs.pathExists "proc/xen"

theorem get_vm_info_cases (fs : FileSystem) :
    get_vm_info fs =
      if kvmDetected fs then "kvm"
      else if fs.pathExists "proc/vz" then "openvz"
      else if xenDetected fs then "xen"
      else "" := by
  unfold get_vm_info kvmDetected xenDetected
  cases hvz : fs.pathExists "proc/vz" <;>
    cases hx1 : fs.pathExists "proc/sys/xen" <;>
    cases hx2 : fs.pathExists "sys/bus/xen" <;>
    cases hx3 : fs.pathExists "proc/xen" <;>
    cases hc : fs.pathExists "proc/cpuinfo" <;>
    cases hq : containsChars qemuMarker (fs.readFile "proc/cpuinfo").toList <;>
    simp [hvz, hx1, hx2, hx3, hc, hq]

/-- C10: `get_vm_info` always returns a string — "kvm" whenever cpuinfo
holds the QEMU marker (overriding everything else), otherwise "openvz" if
proc/vz exists, otherwise "xen" if a xen path exists, otherwise the empty
string. -/
theorem c10_get_vm_info_priority (fs : FileSystem) :
    (kvmDetected fs = true → get_vm_info fs = "kvm")
  ∧ (kvmDetected fs = false → fs.pathExists "proc/vz" = true →
       get_vm_info fs = "openvz")
  ∧ (kvmDetected fs = false → fs.pathExists "proc/vz" = false →
       xenDetected fs = true → get_vm_info fs = "xen")
  ∧ (kvmDetected fs = false → fs.pathExists "proc/vz" = false →
       xenDetected fs = false → get_vm_info fs = "") := by
  refine ⟨?_, ?_, ?_, ?_⟩
  · intro hk
    rw [get_vm_info_cases, hk]
    rfl
  · intro hk hvz
    rw [get_vm_info_cases, hk, hvz]
    rfl
  · intro hk hvz hx
    rw [get_vm_info_cases, hk, hvz, hx]
    rfl
  · intro hk hvz hx
    rw [get_vm_info_cases, hk, hvz, hx]
    rfl

/-- Concrete filesystem for the witness: a KVM guest that also exposes a
xen path, to exercise the override. -/
def kvmFs : FileSystem :=
  { pathExists := fun p => p = "proc/cpuinfo" || p = "proc/xen",
    readFile := fun p =>
      if p = "proc/cpuinfo" then
        "model name : QEMU Virtual CPU version 0.14.0" else "" }

theorem c10_witness :
    kvmDetected kvmFs = true ∧ get_vm_info kvmFs = "kvm" :=
  ⟨by decide, (c10_get_vm_info_priority kvmFs).1 (by decide)⟩

end LandscapeSpec
